import Mathlib

/-!
Shallow embedding of the delta xDS subscription state machine from
`source/common/config/unified_mux/delta_subscription_state.cc`.

Modelling conventions:
* `absl::flat_hash_map` / `flat_hash_set` become duplicate-free association
  lists / lists of strings; iteration order of the C++ containers is
  unspecified, so theorems speak about membership and lookups.
* Protobuf messages become plain structures.  A resource's payload (the
  `resource` Any field) is modelled by `Option String` carrying the embedded
  type URL (the only part of the payload the code inspects); `has_resource()`
  is `Option.isSome`, and `resource().type_url()` on an absent payload is the
  proto3 default `""`, modelled by `payloadTypeUrl`.
* C++ exceptions become an `Except`-shaped control flow: the validation and
  mutation phases of `handleGoodResponse` are translated in the exact order
  the statements execute, and the state/events at the throw point are
  returned alongside the error, mirroring that already-performed mutations
  are not rolled back.
* The watcher (`UntypedConfigUpdateCallbacks`) is an oracle parameter: its
  `onConfigUpdate` either succeeds (`none`) or throws with a message
  (`some msg`).  The calls the code makes on it are recorded as events.
* `supports_heartbeats_ || runtimeFeatureEnabled("…vhds_heartbeats")` is
  folded into the single boolean `supports_heartbeats_`.
-/

/-- Resource state: `waitingForServer` (subscribed, no version yet) or a
known acknowledged version, as in `ResourceState` of the source. -/
inductive ResourceState where
  | waitingForServer
  | known (version : String)
deriving DecidableEq, Repr

def ResourceState.isWaitingForServer : ResourceState → Bool
  | .waitingForServer => true
  | .known _ => false

/-- Version accessor; the source only calls it on non-waiting states, an
absent version is the proto default empty string. -/
def ResourceState.version : ResourceState → String
  | .waitingForServer => ""
  | .known v => v

/-- The `google.rpc.Status` carried in acks; proto default is code 0. -/
structure RpcStatus where
  code : Int
  message : String
deriving DecidableEq, Repr

def grpcStatusOk : Int := 0

def grpcStatusInternal : Int := 13

def okStatus : RpcStatus := { code := grpcStatusOk, message := "" }

/-- UpdateAck as constructed by `handleResponse`: nonce and type url, with a
`google.rpc.Status` error detail that defaults to OK (an ACK). -/
structure UpdateAck where
  nonce : String
  type_url : String
  error_detail : RpcStatus
deriving DecidableEq, Repr

/-- One `envoy.service.discovery.v3.Resource` of a delta response.  `ttl` is
the duration in milliseconds, `resource` the payload's embedded type URL
(`none` when `has_resource()` is false). -/
structure Resource where
  name : String
  version : String
  aliases : List String
  ttl : Option Nat
  resource : Option String
deriving DecidableEq, Repr

/-- Embedded type URL of the payload; the proto3 default `""` when the
payload is absent, exactly what `resource.resource().type_url()` returns. -/
def payloadTypeUrl (r : Resource) : String :=
  match r.resource with
  | some u => u
  | none => ""

/-- A decoded DeltaDiscoveryResponse. -/
structure DeltaDiscoveryResponse where
  type_url : String
  system_version_info : String
  nonce : String
  resources : List Resource
  removed_resources : List String
deriving DecidableEq, Repr

/-- A decoded DeltaDiscoveryRequest as built by `getNextRequestInternal` and
`getNextRequestWithAck`. -/
structure DeltaDiscoveryRequest where
  type_url : String
  initial_resource_versions : List (String × String)
  resource_names_subscribe : List String
  resource_names_unsubscribe : List String
  response_nonce : Option String
  error_detail : Option RpcStatus
deriving DecidableEq, Repr

/-- Calls the state machine makes on the watcher, in order. -/
inductive FailureReason where
  | UpdateRejected
  | ConnectionFailure
  | FetchTimedout
deriving DecidableEq, Repr

inductive WatcherEvent where
  | onConfigUpdate (added : List Resource) (removed : List String)
      (system_version : String)
  | onConfigUpdateFailed (reason : FailureReason) (error : Option String)
deriving DecidableEq, Repr

/-- Watcher oracle: result of `onConfigUpdate(added, removed, version)`;
`some msg` means the callback threw an exception with that message. -/
def WatcherOracle : Type := List Resource → List String → String → Option String

/-! Association-list maps and list sets standing in for the absl hash
containers. -/

def lookupL {α : Type} : List (String × α) → String → Option α
  | [], _ => none
  | p :: t, k => if p.1 = k then some p.2 else lookupL t k

def mapSet {α : Type} (l : List (String × α)) (k : String) (v : α) :
    List (String × α) :=
  (k, v) :: l.filter (fun p => p.1 ≠ k)

def mapErase {α : Type} (l : List (String × α)) (k : String) :
    List (String × α) :=
  l.filter (fun p => p.1 ≠ k)

def setInsert (l : List String) (x : String) : List String :=
  if x ∈ l then l else x :: l

def setErase (l : List String) (x : String) : List String :=
  l.filter (fun y => y ≠ x)

/-- The per-type-url subscription state: the resource table, the pending
delta buffer (`names_added_`, `names_removed_`), the TTL tracker (name to
armed duration in milliseconds), and the stream-scoped flags. -/
structure DState where
  type_url : String
  resource_state_ : List (String × ResourceState)
  names_added_ : List String
  names_removed_ : List String
  ttl_ : List (String × Nat)
  any_request_sent_yet_in_current_stream_ : Bool
  supports_heartbeats_ : Bool
  dynamic_context_changed_ : Bool
deriving DecidableEq, Repr

def initState (tu : String) (hb : Bool) : DState :=
  { type_url := tu
    resource_state_ := []
    names_added_ := []
    names_removed_ := []
    ttl_ := []
    any_request_sent_yet_in_current_stream_ := false
    supports_heartbeats_ := hb
    dynamic_context_changed_ := false }

/-! `DeltaSubscriptionState::updateSubscriptionInterest`: the added loop runs
first, then the removed loop, exactly as in the source. -/

def interestAddOne (s : DState) (a : String) : DState :=
  { s with resource_state_ := mapSet s.resource_state_ a .waitingForServer
           names_removed_ := setErase s.names_removed_ a
           names_added_ := setInsert s.names_added_ a }

def interestRemoveOne (s : DState) (r : String) : DState :=
  { s with resource_state_ := mapErase s.resource_state_ r
           names_added_ := setErase s.names_added_ r
           names_removed_ := setInsert s.names_removed_ r }

def updateSubscriptionInterest (s : DState) (cur_added cur_removed : List String) :
    DState :=
  cur_removed.foldl interestRemoveOne (cur_added.foldl interestAddOne s)

/-- `DeltaSubscriptionState::subscriptionUpdatePending`. -/
def subscriptionUpdatePending (s : DState) : Bool :=
  !s.names_added_.isEmpty || !s.names_removed_.isEmpty ||
    !s.any_request_sent_yet_in_current_stream_ || s.dynamic_context_changed_

/-- `DeltaSubscriptionState::isHeartbeatResource`. -/
def isHeartbeatResource (s : DState) (r : Resource) : Bool :=
  if !s.supports_heartbeats_ then false
  else
    match lookupL s.resource_state_ r.name with
    | none => false
    | some rs =>
      !r.resource.isSome && !rs.isWaitingForServer && r.version == rs.version

/-! The first loop of `handleGoodResponse`: duplicate detection (V1),
heartbeat skipping, accumulation of `non_heartbeat_resources`, the
alias-only `continue`, and the embedded-type-URL check (V3), in statement
order.  `seen` is the `names_added_removed` set. -/

def validateResourcesLoop (s : DState) (msgTypeUrl : String) :
    List Resource → List String → List Resource →
      Except String (List String × List Resource)
  | [], seen, nhr => .ok (seen, nhr)
  | r :: rs, seen, nhr =>
    if r.name ∈ seen then
      .error ("duplicate name " ++ r.name ++ " found among added/updated resources")
    else if isHeartbeatResource s r then
      validateResourcesLoop s msgTypeUrl rs (r.name :: seen) nhr
    else if !r.resource.isSome && !r.aliases.isEmpty then
      validateResourcesLoop s msgTypeUrl rs (r.name :: seen) (nhr ++ [r])
    else if msgTypeUrl ≠ payloadTypeUrl r then
      .error ("type URL " ++ payloadTypeUrl r ++
        " embedded in an individual Any does not match the message-wide type URL " ++
        msgTypeUrl ++ " in DeltaDiscoveryResponse")
    else
      validateResourcesLoop s msgTypeUrl rs (r.name :: seen) (nhr ++ [r])

/-- The second loop of `handleGoodResponse`: duplicate detection across the
union of added and removed names (V2), continuing with the same `seen` set. -/
def validateRemovedLoop : List String → List String → Except String (List String)
  | [], seen => .ok seen
  | n :: ns, seen =>
    if n ∈ seen then
      .error ("duplicate name " ++ n ++ " found in the union of added+removed resources")
    else validateRemovedLoop ns (n :: seen)

/-- The validation phase of `handleGoodResponse` (everything that can throw
before any mutation); returns the `non_heartbeat_resources` list. -/
def validateResponse (s : DState) (msg : DeltaDiscoveryResponse) :
    Except String (List Resource) :=
  match validateResourcesLoop s msg.type_url msg.resources [] [] with
  | .error e => .error e
  | .ok (seen, nhr) =>
    match validateRemovedLoop msg.removed_resources seen with
    | .error e => .error e
    | .ok _ => .ok nhr

/-- `DeltaSubscriptionState::addResourceState`: arm or cancel the TTL timer
for the name, then store `Known(version)` in the table. -/
def addResourceState (s : DState) (r : Resource) : DState :=
  let ttl :=
    match r.ttl with
    | some d => mapSet s.ttl_ r.name d
    | none => mapErase s.ttl_ r.name
  { s with ttl_ := ttl
           resource_state_ := mapSet s.resource_state_ r.name (.known r.version) }

/-- The mutation loop of `handleGoodResponse` under the scoped TTL update:
`addResourceState` for every resource of the response, heartbeats included. -/
def applyResponse (s : DState) (msg : DeltaDiscoveryResponse) : DState :=
  msg.resources.foldl addResourceState s

/-- The removed-resources loop of `handleGoodResponse`: entries present in
the table are set back to `waitingForServer` (retained, not erased). -/
def applyRemovals (s : DState) (removed : List String) : DState :=
  removed.foldl
    (fun s n =>
      if (lookupL s.resource_state_ n).isSome then
        { s with resource_state_ := mapSet s.resource_state_ n .waitingForServer }
      else s)
    s

/-- `DeltaSubscriptionState::handleGoodResponse`: validation, mutation,
watcher callback, removal processing, in source order.  Returns the state
and recorded watcher calls at the point the function returned or threw, and
the exception message if it threw. -/
def handleGoodResponse (s : DState) (wf : WatcherOracle)
    (msg : DeltaDiscoveryResponse) : DState × List WatcherEvent × Option String :=
  match validateResponse s msg with
  | .error e => (s, [], some e)
  | .ok nhr =>
    let s1 := applyResponse s msg
    let ev := WatcherEvent.onConfigUpdate nhr msg.removed_resources
      msg.system_version_info
    match wf nhr msg.removed_resources msg.system_version_info with
    | some e => (s1, [ev], some e)
    | none => (applyRemovals s1 msg.removed_resources, [ev], none)

/-- Modelled from the spec: `Config::Utility::truncateGrpcStatusMessage`
(its definition lives in `common/config/utility.cc`, which is not part of
this tree).  The spec only requires truncation to a bounded length. -/
def truncateGrpcStatusMessage (m : String) : String :=
  m.take 4096

/-- `DeltaSubscriptionState::handleResponse` together with
`handleBadResponse`: the ack always carries the response's nonce; on an
exception the ack becomes a NACK with code `Internal` and the truncated
message, and the watcher is told `onConfigUpdateFailed(UpdateRejected, e)`. -/
def handleResponse (s : DState) (wf : WatcherOracle)
    (msg : DeltaDiscoveryResponse) : DState × UpdateAck × List WatcherEvent :=
  let r := handleGoodResponse s wf msg
  match r.2.2 with
  | none => (r.1, { nonce := msg.nonce, type_url := s.type_url,
                    error_detail := okStatus }, r.2.1)
  | some e =>
    (r.1,
     { nonce := msg.nonce, type_url := s.type_url,
       error_detail := { code := grpcStatusInternal,
                         message := truncateGrpcStatusMessage e } },
     r.2.1 ++ [WatcherEvent.onConfigUpdateFailed .UpdateRejected (some e)])

/-- `DeltaSubscriptionState::handleEstablishmentFailure`: only a watcher
notification, no state change. -/
def handleEstablishmentFailure (s : DState) : DState × List WatcherEvent :=
  (s, [WatcherEvent.onConfigUpdateFailed .ConnectionFailure none])

/-- The `initial_resource_versions` map built on the first request of a
stream: every non-waiting table entry contributes its version. -/
def collectInitialVersions (t : List (String × ResourceState)) :
    List (String × String) :=
  t.filterMap
    (fun p =>
      match p.2 with
      | .known v => some (p.1, v)
      | .waitingForServer => none)

/-- On the first request of a stream every table name is inserted into
`names_added_`. -/
def subscribeAll (t : List (String × ResourceState)) (acc : List String) :
    List String :=
  t.foldl (fun a p => setInsert a p.1) acc

/-- `DeltaSubscriptionState::getNextRequestInternal`. -/
def getNextRequestInternal (s : DState) : DState × DeltaDiscoveryRequest :=
  let s1 :=
    if s.any_request_sent_yet_in_current_stream_ = false then
      { s with any_request_sent_yet_in_current_stream_ := true
               names_added_ := subscribeAll s.resource_state_ s.names_added_
               names_removed_ := [] }
    else s
  let iv :=
    if s.any_request_sent_yet_in_current_stream_ = false then
      collectInitialVersions s.resource_state_
    else []
  ({ s1 with names_added_ := [], names_removed_ := [] },
   { type_url := s.type_url
     initial_resource_versions := iv
     resource_names_subscribe := s1.names_added_
     resource_names_unsubscribe := s1.names_removed_
     response_nonce := none
     error_detail := none })

def getNextRequestAckless (s : DState) : DState × DeltaDiscoveryRequest :=
  getNextRequestInternal s

/-- `DeltaSubscriptionState::getNextRequestWithAck`: copy the ack's nonce,
and attach `error_detail` only when the ack's status code is not OK. -/
def getNextRequestWithAck (s : DState) (ack : UpdateAck) :
    DState × DeltaDiscoveryRequest :=
  let r := getNextRequestInternal s
  (r.1,
   { r.2 with
       response_nonce := some ack.nonce
       error_detail :=
         if ack.error_detail.code ≠ grpcStatusOk then some ack.error_detail
         else none })

/-- `DeltaSubscriptionState::ttlExpiryCallback`: each expired name is set to
`waitingForServer` (inserted if absent) and reported to the watcher as a
removal with empty version. -/
def ttlExpiryCallback (s : DState) (expired : List String) :
    DState × List WatcherEvent :=
  let s' := expired.foldl
    (fun s n =>
      { s with resource_state_ := mapSet s.resource_state_ n .waitingForServer })
    s
  (s', [WatcherEvent.onConfigUpdate [] expired ""])

/-! Lemmas about the association-list maps and list sets. -/

theorem lookupL_filter_keep {α : Type} (p : String × α → Bool)
    (l : List (String × α)) (n : String) (h : ∀ v, p (n, v) = true) :
    lookupL (l.filter p) n = lookupL l n := by
  induction l with
  | nil => rfl
  | cons q t ih =>
    by_cases hq : q.1 = n
    · have hkeep : p q = true := by
        obtain ⟨k, v⟩ := q
        simp only at hq
        subst hq
        exact h v
      rw [List.filter_cons, if_pos (by simpa using hkeep)]
      simp [lookupL, hq, ih]
    · by_cases hp : p q = true
      · rw [List.filter_cons, if_pos (by simpa using hp)]
        simp [lookupL, hq, ih]
      · rw [List.filter_cons, if_neg (by simpa using hp)]
        simp [lookupL, hq, ih]

theorem lookupL_filter_drop {α : Type} (p : String × α → Bool)
    (l : List (String × α)) (n : String) (h : ∀ v, p (n, v) = false) :
    lookupL (l.filter p) n = none := by
  induction l with
  | nil => rfl
  | cons q t ih =>
    by_cases hq : q.1 = n
    · have hdrop : p q = false := by
        obtain ⟨k, v⟩ := q
        simp only at hq
        subst hq
        exact h v
      rw [List.filter_cons, if_neg (by simp [hdrop])]
      exact ih
    · by_cases hp : p q = true
      · rw [List.filter_cons, if_pos (by simpa using hp)]
        simp [lookupL, hq, ih]
      · rw [List.filter_cons, if_neg (by simpa using hp)]
        exact ih

theorem lookupL_mapSet {α : Type} (l : List (String × α)) (k n : String) (v : α) :
    lookupL (mapSet l k v) n = if k = n then some v else lookupL l n := by
  by_cases h : k = n
  · simp [mapSet, lookupL, h]
  · rw [mapSet]
    show lookupL ((k, v) :: _) n = _
    rw [lookupL, if_neg h, if_neg h]
    exact lookupL_filter_keep _ l n (fun w => by simp; exact fun e => h e.symm)

theorem lookupL_mapErase {α : Type} (l : List (String × α)) (k n : String) :
    lookupL (mapErase l k) n = if k = n then none else lookupL l n := by
  by_cases h : k = n
  · subst h
    rw [if_pos rfl, mapErase]
    exact lookupL_filter_drop _ l k (fun w => by simp)
  · rw [if_neg h, mapErase]
    exact lookupL_filter_keep _ l n (fun w => by simp; exact fun e => h e.symm)

theorem mem_setInsert (l : List String) (x n : String) :
    n ∈ setInsert l x ↔ n = x ∨ n ∈ l := by
  by_cases h : x ∈ l
  · simp only [setInsert, if_pos h]
    constructor
    · exact Or.inr
    · rintro (rfl | hn)
      · exact h
      · exact hn
  · simp [setInsert, if_neg h]

theorem mem_setErase (l : List String) (x n : String) :
    n ∈ setErase l x ↔ n ∈ l ∧ n ≠ x := by
  simp [setErase]

theorem lookupL_eq_some_iff_mem {α : Type} (l : List (String × α))
    (hn : (l.map Prod.fst).Nodup) (n : String) (v : α) :
    lookupL l n = some v ↔ (n, v) ∈ l := by
  induction l with
  | nil => simp [lookupL]
  | cons p t ih =>
    simp only [List.map_cons, List.nodup_cons] at hn
    by_cases hp : p.1 = n
    · subst hp
      simp only [lookupL, if_pos rfl, List.mem_cons]
      constructor
      · rintro h
        left
        cases p
        simp_all
      · rintro (h | h)
        · cases p; simp_all
        · exact absurd (List.mem_map_of_mem Prod.fst h) (by simpa using hn.1)
    · simp only [lookupL, if_neg hp, List.mem_cons, ih hn.2]
      constructor
      · exact Or.inr
      · rintro (h | h)
        · cases p; simp_all
        · exact h

theorem lookupL_isSome_iff {α : Type} (l : List (String × α)) (n : String) :
    (lookupL l n).isSome = true ↔ ∃ v, (n, v) ∈ l := by
  induction l with
  | nil => simp [lookupL]
  | cons p t ih =>
    by_cases hp : p.1 = n
    · constructor
      · intro _
        exact ⟨p.2, by cases p; simp_all⟩
      · intro _
        show (if p.1 = n then some p.2 else lookupL t n).isSome = true
        rw [if_pos hp]
        rfl
    · constructor
      · intro h
        have h' : (lookupL t n).isSome = true := by
          simpa [lookupL, hp] using h
        obtain ⟨v, hv⟩ := ih.mp h'
        exact ⟨v, List.mem_cons_of_mem _ hv⟩
      · rintro ⟨v, hv⟩
        rcases List.mem_cons.mp hv with h1 | h1
        · cases p
          simp_all
        · have h2 := ih.mpr ⟨v, h1⟩
          simpa [lookupL, hp] using h2

/-! Effect of the two loops of `updateSubscriptionInterest`, stated on the
folds over the added and removed sets. -/

theorem addFold_untouched (A : List String) (s : DState) :
    (A.foldl interestAddOne s).type_url = s.type_url ∧
    (A.foldl interestAddOne s).ttl_ = s.ttl_ ∧
    (A.foldl interestAddOne s).any_request_sent_yet_in_current_stream_ =
      s.any_request_sent_yet_in_current_stream_ ∧
    (A.foldl interestAddOne s).supports_heartbeats_ = s.supports_heartbeats_ ∧
    (A.foldl interestAddOne s).dynamic_context_changed_ =
      s.dynamic_context_changed_ := by
  induction A generalizing s with
  | nil => exact ⟨rfl, rfl, rfl, rfl, rfl⟩
  | cons a A ih => simpa [interestAddOne] using ih (interestAddOne s a)

theorem addFold_lookup (A : List String) (s : DState) (n : String) :
    lookupL (A.foldl interestAddOne s).resource_state_ n =
      if n ∈ A then some .waitingForServer else lookupL s.resource_state_ n := by
  induction A generalizing s with
  | nil => simp
  | cons a A ih =>
    rw [List.foldl_cons, ih]
    by_cases hA : n ∈ A
    · simp [hA]
    · simp only [hA, if_false, List.mem_cons]
      by_cases ha : n = a
      · simp [ha, interestAddOne, lookupL_mapSet]
      · have han : a ≠ n := fun h => ha h.symm
        simp [ha, hA, interestAddOne, lookupL_mapSet, han]

theorem addFold_added_mem (A : List String) (s : DState) (n : String) :
    n ∈ (A.foldl interestAddOne s).names_added_ ↔
      n ∈ s.names_added_ ∨ n ∈ A := by
  induction A generalizing s with
  | nil => simp
  | cons a A ih =>
    rw [List.foldl_cons, ih]
    simp only [interestAddOne, mem_setInsert, List.mem_cons]
    tauto

theorem addFold_removed_mem (A : List String) (s : DState) (n : String) :
    n ∈ (A.foldl interestAddOne s).names_removed_ ↔
      n ∈ s.names_removed_ ∧ n ∉ A := by
  induction A generalizing s with
  | nil => simp
  | cons a A ih =>
    rw [List.foldl_cons, ih]
    simp only [interestAddOne, mem_setErase, List.mem_cons]
    tauto

theorem rmFold_untouched (R : List String) (s : DState) :
    (R.foldl interestRemoveOne s).type_url = s.type_url ∧
    (R.foldl interestRemoveOne s).ttl_ = s.ttl_ ∧
    (R.foldl interestRemoveOne s).any_request_sent_yet_in_current_stream_ =
      s.any_request_sent_yet_in_current_stream_ ∧
    (R.foldl interestRemoveOne s).supports_heartbeats_ = s.supports_heartbeats_ ∧
    (R.foldl interestRemoveOne s).dynamic_context_changed_ =
      s.dynamic_context_changed_ := by
  induction R generalizing s with
  | nil => exact ⟨rfl, rfl, rfl, rfl, rfl⟩
  | cons r R ih => simpa [interestRemoveOne] using ih (interestRemoveOne s r)

theorem rmFold_lookup (R : List String) (s : DState) (n : String) :
    lookupL (R.foldl interestRemoveOne s).resource_state_ n =
      if n ∈ R then none else lookupL s.resource_state_ n := by
  induction R generalizing s with
  | nil => simp
  | cons r R ih =>
    rw [List.foldl_cons, ih]
    by_cases hR : n ∈ R
    · simp [hR]
    · simp only [hR, if_false, List.mem_cons]
      by_cases hr : n = r
      · simp [hr, interestRemoveOne, lookupL_mapErase]
      · have hrn : r ≠ n := fun h => hr h.symm
        simp [hr, hR, interestRemoveOne, lookupL_mapErase, hrn]

theorem rmFold_added_mem (R : List String) (s : DState) (n : String) :
    n ∈ (R.foldl interestRemoveOne s).names_added_ ↔
      n ∈ s.names_added_ ∧ n ∉ R := by
  induction R generalizing s with
  | nil => simp
  | cons r R ih =>
    rw [List.foldl_cons, ih]
    simp only [interestRemoveOne, mem_setErase, List.mem_cons]
    tauto

theorem rmFold_removed_mem (R : List String) (s : DState) (n : String) :
    n ∈ (R.foldl interestRemoveOne s).names_removed_ ↔
      n ∈ s.names_removed_ ∨ n ∈ R := by
  induction R generalizing s with
  | nil => simp
  | cons r R ih =>
    rw [List.foldl_cons, ih]
    simp only [interestRemoveOne, mem_setInsert, List.mem_cons]
    tauto

/-! Effects of the mutation loops of `handleGoodResponse`. -/

theorem applyResponseFold_untouched (rs : List Resource) (s : DState) :
    (rs.foldl addResourceState s).type_url = s.type_url ∧
    (rs.foldl addResourceState s).names_added_ = s.names_added_ ∧
    (rs.foldl addResourceState s).names_removed_ = s.names_removed_ ∧
    (rs.foldl addResourceState s).any_request_sent_yet_in_current_stream_ =
      s.any_request_sent_yet_in_current_stream_ ∧
    (rs.foldl addResourceState s).supports_heartbeats_ = s.supports_heartbeats_ ∧
    (rs.foldl addResourceState s).dynamic_context_changed_ =
      s.dynamic_context_changed_ := by
  induction rs generalizing s with
  | nil => exact ⟨rfl, rfl, rfl, rfl, rfl, rfl⟩
  | cons r rs ih => simpa [addResourceState] using ih (addResourceState s r)

theorem addResourceState_lookup_ne (s : DState) (r : Resource) (n : String)
    (h : r.name ≠ n) :
    lookupL (addResourceState s r).resource_state_ n = lookupL s.resource_state_ n ∧
    lookupL (addResourceState s r).ttl_ n = lookupL s.ttl_ n := by
  constructor
  · simp [addResourceState, lookupL_mapSet, h]
  · rcases ht : r.ttl with _ | d <;>
      simp [addResourceState, ht, lookupL_mapSet, lookupL_mapErase, h]

theorem addResourceState_lookup_self (s : DState) (r : Resource) :
    lookupL (addResourceState s r).resource_state_ r.name =
      some (.known r.version) ∧
    lookupL (addResourceState s r).ttl_ r.name = r.ttl := by
  constructor
  · simp [addResourceState, lookupL_mapSet]
  · rcases ht : r.ttl with _ | d <;>
      simp [addResourceState, ht, lookupL_mapSet, lookupL_mapErase]

theorem applyResponseFold_lookup_not_mem (rs : List Resource) (s : DState)
    (n : String) (h : n ∉ rs.map Resource.name) :
    lookupL (rs.foldl addResourceState s).resource_state_ n =
      lookupL s.resource_state_ n ∧
    lookupL (rs.foldl addResourceState s).ttl_ n = lookupL s.ttl_ n := by
  induction rs generalizing s with
  | nil => exact ⟨rfl, rfl⟩
  | cons r rs ih =>
    simp only [List.map_cons, List.mem_cons] at h
    push_neg at h
    rw [List.foldl_cons]
    obtain ⟨h1, h2⟩ := ih (addResourceState s r) h.2
    obtain ⟨h3, h4⟩ := addResourceState_lookup_ne s r n (fun e => h.1 e.symm)
    exact ⟨h1.trans h3, h2.trans h4⟩

theorem applyResponseFold_lookup_mem (rs : List Resource) (s : DState)
    (r : Resource) (hnd : (rs.map Resource.name).Nodup) (hr : r ∈ rs) :
    lookupL (rs.foldl addResourceState s).resource_state_ r.name =
      some (.known r.version) ∧
    lookupL (rs.foldl addResourceState s).ttl_ r.name = r.ttl := by
  induction rs generalizing s with
  | nil => cases hr
  | cons r0 rs ih =>
    simp only [List.map_cons, List.nodup_cons] at hnd
    rcases List.mem_cons.mp hr with h | h
    · subst h
      rw [List.foldl_cons]
      obtain ⟨h1, h2⟩ :=
        applyResponseFold_lookup_not_mem rs (addResourceState s r) r.name hnd.1
      obtain ⟨h3, h4⟩ := addResourceState_lookup_self s r
      exact ⟨h1.trans h3, h2.trans h4⟩
    · rw [List.foldl_cons]
      exact ih (addResourceState s r0) hnd.2 h

theorem applyResponseFold_isSome_mono (rs : List Resource) (s : DState)
    (n : String) (h : (lookupL s.resource_state_ n).isSome = true) :
    (lookupL (rs.foldl addResourceState s).resource_state_ n).isSome = true := by
  induction rs generalizing s with
  | nil => exact h
  | cons r rs ih =>
    rw [List.foldl_cons]
    apply ih
    rw [addResourceState]
    by_cases he : r.name = n <;> simp [lookupL_mapSet, he, h]

theorem applyRemovals_untouched (removed : List String) (s : DState) :
    (applyRemovals s removed).type_url = s.type_url ∧
    (applyRemovals s removed).names_added_ = s.names_added_ ∧
    (applyRemovals s removed).names_removed_ = s.names_removed_ ∧
    (applyRemovals s removed).ttl_ = s.ttl_ ∧
    (applyRemovals s removed).any_request_sent_yet_in_current_stream_ =
      s.any_request_sent_yet_in_current_stream_ ∧
    (applyRemovals s removed).supports_heartbeats_ = s.supports_heartbeats_ ∧
    (applyRemovals s removed).dynamic_context_changed_ =
      s.dynamic_context_changed_ := by
  induction removed generalizing s with
  | nil => exact ⟨rfl, rfl, rfl, rfl, rfl, rfl, rfl⟩
  | cons m ms ih =>
    rw [applyRemovals, List.foldl_cons]
    by_cases hm : (lookupL s.resource_state_ m).isSome = true <;>
      simpa [applyRemovals, hm] using ih _

theorem applyRemovals_lookup_not_mem (removed : List String) (s : DState)
    (n : String) (h : n ∉ removed) :
    lookupL (applyRemovals s removed).resource_state_ n =
      lookupL s.resource_state_ n := by
  induction removed generalizing s with
  | nil => rfl
  | cons m ms ih =>
    simp only [List.mem_cons] at h
    push_neg at h
    rw [applyRemovals, List.foldl_cons]
    by_cases hm : (lookupL s.resource_state_ m).isSome = true
    · rw [← applyRemovals]
      rw [if_pos hm]
      rw [ih _ h.2]
      have hmn : m ≠ n := fun e => h.1 e.symm
      simp [lookupL_mapSet, hmn]
    · rw [← applyRemovals, if_neg hm]
      exact ih _ h.2

theorem applyRemovals_isSome_mono (removed : List String) (s : DState)
    (n : String) (h : (lookupL s.resource_state_ n).isSome = true) :
    (lookupL (applyRemovals s removed).resource_state_ n).isSome = true := by
  induction removed generalizing s with
  | nil => exact h
  | cons m ms ih =>
    rw [applyRemovals, List.foldl_cons, ← applyRemovals]
    by_cases hm : (lookupL s.resource_state_ m).isSome = true
    · rw [if_pos hm]
      apply ih
      by_cases he : m = n <;> simp [lookupL_mapSet, he, h]
    · rw [if_neg hm]
      exact ih _ h

/-! Effect of `ttlExpiryCallback` on the state. -/

theorem ttlExpiry_untouched (expired : List String) (s : DState) :
    (ttlExpiryCallback s expired).1.type_url = s.type_url ∧
    (ttlExpiryCallback s expired).1.names_added_ = s.names_added_ ∧
    (ttlExpiryCallback s expired).1.names_removed_ = s.names_removed_ ∧
    (ttlExpiryCallback s expired).1.ttl_ = s.ttl_ ∧
    (ttlExpiryCallback s expired).1.any_request_sent_yet_in_current_stream_ =
      s.any_request_sent_yet_in_current_stream_ := by
  rw [ttlExpiryCallback]
  induction expired generalizing s with
  | nil => exact ⟨rfl, rfl, rfl, rfl, rfl⟩
  | cons m ms ih => simpa using ih _

theorem ttlExpiry_lookup (expired : List String) (s : DState) (n : String) :
    lookupL (ttlExpiryCallback s expired).1.resource_state_ n =
      if n ∈ expired then some .waitingForServer
      else lookupL s.resource_state_ n := by
  rw [ttlExpiryCallback]
  induction expired generalizing s with
  | nil => simp
  | cons m ms ih =>
    rw [List.foldl_cons, ih]
    by_cases hms : n ∈ ms
    · simp [hms]
    · simp only [hms, if_false, List.mem_cons]
      by_cases hm : n = m
      · simp [hm, lookupL_mapSet]
      · have hmn : m ≠ n := fun e => hm e.symm
        simp [hm, hms, lookupL_mapSet, hmn]

/-! Effect of `getNextRequestInternal` on the state. -/

theorem getNextRequestInternal_state (s : DState) :
    (getNextRequestInternal s).1.type_url = s.type_url ∧
    (getNextRequestInternal s).1.resource_state_ = s.resource_state_ ∧
    (getNextRequestInternal s).1.names_added_ = [] ∧
    (getNextRequestInternal s).1.names_removed_ = [] ∧
    (getNextRequestInternal s).1.ttl_ = s.ttl_ ∧
    (getNextRequestInternal s).1.supports_heartbeats_ = s.supports_heartbeats_ := by
  rw [getNextRequestInternal]
  by_cases h : s.any_request_sent_yet_in_current_stream_ = false <;>
    simp [h]

theorem mem_subscribeAll_of_acc (t : List (String × ResourceState))
    (acc : List String) (n : String) (h : n ∈ acc) : n ∈ subscribeAll t acc := by
  rw [subscribeAll]
  induction t generalizing acc with
  | nil => exact h
  | cons p t ih =>
    rw [List.foldl_cons]
    exact ih _ ((mem_setInsert acc p.1 n).mpr (Or.inr h))

theorem mem_subscribeAll_of_mem (t : List (String × ResourceState))
    (acc : List String) (p : String × ResourceState) (hp : p ∈ t) :
    p.1 ∈ subscribeAll t acc := by
  rw [subscribeAll]
  induction t generalizing acc with
  | nil => cases hp
  | cons q t ih =>
    rw [List.foldl_cons]
    rcases List.mem_cons.mp hp with h | h
    · subst h
      exact mem_subscribeAll_of_acc t _ p.1 ((mem_setInsert acc p.1 p.1).mpr (Or.inl rfl))
    · exact ih _ h

theorem mem_collectInitialVersions (t : List (String × ResourceState))
    (n v : String) :
    (n, v) ∈ collectInitialVersions t ↔ (n, .known v) ∈ t := by
  rw [collectInitialVersions]
  induction t with
  | nil => simp
  | cons p t ih =>
    obtain ⟨k, st⟩ := p
    cases st with
    | waitingForServer =>
      simp only [List.filterMap_cons]
      simp only [List.mem_cons, ih]
      constructor
      · exact Or.inr
      · rintro (h | h)
        · cases h
        · exact h
    | known w =>
      simp only [List.filterMap_cons]
      simp only [List.mem_cons, ih, Prod.mk.injEq]
      constructor
      · rintro (⟨h1, h2⟩ | h)
        · left
          simp [h1, h2]
        · exact Or.inr h
      · rintro (h | h)
        · left
          cases h
          simp_all
        · exact Or.inr h

/-! Facts the validation phase guarantees when it succeeds. -/

theorem validateResourcesLoop_nhr_mono (s : DState) (tu : String)
    (rs : List Resource) (seen : List String) (nhr : List Resource)
    (seen' : List String) (nhr' : List Resource)
    (h : validateResourcesLoop s tu rs seen nhr = .ok (seen', nhr')) :
    ∀ x ∈ nhr, x ∈ nhr' := by
  induction rs generalizing seen nhr with
  | nil =>
    simp only [validateResourcesLoop, Except.ok.injEq, Prod.mk.injEq] at h
    intro x hx
    rw [← h.2]
    exact hx
  | cons r rs ih =>
    simp only [validateResourcesLoop] at h
    split_ifs at h with h1 h2 h3 h4
    · intro x hx
      exact ih _ _ h x hx
    · intro x hx
      exact ih _ _ h x (List.mem_append_left _ hx)
    · intro x hx
      exact ih _ _ h x (List.mem_append_left _ hx)

theorem validateResourcesLoop_nhr_sound (s : DState) (tu : String)
    (rs : List Resource) (seen : List String) (nhr : List Resource)
    (seen' : List String) (nhr' : List Resource)
    (h : validateResourcesLoop s tu rs seen nhr = .ok (seen', nhr')) :
    ∀ x ∈ nhr', x ∈ nhr ∨ (x ∈ rs ∧ isHeartbeatResource s x = false) := by
  induction rs generalizing seen nhr with
  | nil =>
    simp only [validateResourcesLoop, Except.ok.injEq, Prod.mk.injEq] at h
    intro x hx
    rw [← h.2] at hx
    exact Or.inl hx
  | cons r rs ih =>
    simp only [validateResourcesLoop] at h
    split_ifs at h with h1 h2 h3 h4
    · intro x hx
      rcases ih _ _ h x hx with h5 | h5
      · exact Or.inl h5
      · exact Or.inr ⟨List.mem_cons_of_mem _ h5.1, h5.2⟩
    · intro x hx
      rcases ih _ _ h x hx with h5 | h5
      · rcases List.mem_append.mp h5 with h6 | h6
        · exact Or.inl h6
        · rcases List.mem_singleton.mp h6 with rfl
          exact Or.inr ⟨List.mem_cons_self _ _, Bool.not_eq_true _ ▸ (by simpa using h2)⟩
      · exact Or.inr ⟨List.mem_cons_of_mem _ h5.1, h5.2⟩
    · intro x hx
      rcases ih _ _ h x hx with h5 | h5
      · rcases List.mem_append.mp h5 with h6 | h6
        · exact Or.inl h6
        · rcases List.mem_singleton.mp h6 with rfl
          exact Or.inr ⟨List.mem_cons_self _ _, Bool.not_eq_true _ ▸ (by simpa using h2)⟩
      · exact Or.inr ⟨List.mem_cons_of_mem _ h5.1, h5.2⟩

theorem validateResourcesLoop_nhr_complete (s : DState) (tu : String)
    (rs : List Resource) (seen : List String) (nhr : List Resource)
    (seen' : List String) (nhr' : List Resource) (r : Resource)
    (h : validateResourcesLoop s tu rs seen nhr = .ok (seen', nhr'))
    (hr : r ∈ rs) (hhb : isHeartbeatResource s r = false) :
    r ∈ nhr' := by
  induction rs generalizing seen nhr with
  | nil => cases hr
  | cons r0 rs ih =>
    simp only [validateResourcesLoop] at h
    rcases List.mem_cons.mp hr with rfl | hmem
    · split_ifs at h with h1 h2 h3 h4
      · rw [hhb] at h2
        cases h2
      · exact validateResourcesLoop_nhr_mono s tu rs _ _ _ _ h r
          (List.mem_append_right _ (List.mem_singleton_self r))
      · exact validateResourcesLoop_nhr_mono s tu rs _ _ _ _ h r
          (List.mem_append_right _ (List.mem_singleton_self r))
    · split_ifs at h with h1 h2 h3 h4
      · exact ih _ _ h hmem
      · exact ih _ _ h hmem
      · exact ih _ _ h hmem

theorem validateResourcesLoop_seen (s : DState) (tu : String)
    (rs : List Resource) (seen : List String) (nhr : List Resource)
    (seen' : List String) (nhr' : List Resource)
    (h : validateResourcesLoop s tu rs seen nhr = .ok (seen', nhr')) :
    (∀ n ∈ seen, n ∈ seen') ∧ (∀ x ∈ rs, x.name ∈ seen') := by
  induction rs generalizing seen nhr with
  | nil =>
    simp only [validateResourcesLoop, Except.ok.injEq, Prod.mk.injEq] at h
    exact ⟨fun n hn => h.1 ▸ hn, fun x hx => absurd hx (List.not_mem_nil x)⟩
  | cons r rs ih =>
    simp only [validateResourcesLoop] at h
    split_ifs at h with h1 h2 h3 h4 <;>
    · obtain ⟨hs, hx⟩ := ih _ _ h
      refine ⟨fun n hn => hs n (List.mem_cons_of_mem _ hn), ?_⟩
      intro x hxm
      rcases List.mem_cons.mp hxm with rfl | hm
      · exact hs x.name (List.mem_cons_self _ _)
      · exact hx x hm

theorem validateResourcesLoop_names_nodup (s : DState) (tu : String)
    (rs : List Resource) (seen : List String) (nhr : List Resource)
    (seen' : List String) (nhr' : List Resource)
    (h : validateResourcesLoop s tu rs seen nhr = .ok (seen', nhr')) :
    (rs.map Resource.name).Nodup ∧ ∀ x ∈ rs, x.name ∉ seen := by
  induction rs generalizing seen nhr with
  | nil => exact ⟨List.nodup_nil, fun x hx => absurd hx (List.not_mem_nil x)⟩
  | cons r rs ih =>
    simp only [validateResourcesLoop] at h
    split_ifs at h with h1 h2 h3 h4 <;>
    · obtain ⟨hnd, hdisj⟩ := ih _ _ h
      constructor
      · rw [List.map_cons, List.nodup_cons]
        refine ⟨?_, hnd⟩
        intro hmem
        obtain ⟨x, hx, he⟩ := List.mem_map.mp hmem
        exact hdisj x hx (he ▸ List.mem_cons_self _ _)
      · intro x hx
        rcases List.mem_cons.mp hx with rfl | hm
        · exact h1
        · intro hmem
          exact hdisj x hm (List.mem_cons_of_mem _ hmem)

theorem validateRemovedLoop_disjoint (ns seen seen' : List String)
    (h : validateRemovedLoop ns seen = .ok seen') :
    ∀ n ∈ ns, n ∉ seen := by
  induction ns generalizing seen with
  | nil => exact fun n hn => absurd hn (List.not_mem_nil n)
  | cons m ms ih =>
    simp only [validateRemovedLoop] at h
    split_ifs at h with h1
    intro n hn
    rcases List.mem_cons.mp hn with rfl | hm
    · exact h1
    · intro hmem
      exact ih _ h n hm (List.mem_cons_of_mem _ hmem)

theorem validateResponse_names_nodup (s : DState) (msg : DeltaDiscoveryResponse)
    (nhr : List Resource) (h : validateResponse s msg = .ok nhr) :
    (msg.resources.map Resource.name).Nodup := by
  rw [validateResponse] at h
  split at h
  · cases h
  · rename_i seen1 nhr1 h1
    exact (validateResourcesLoop_names_nodup s msg.type_url msg.resources
      [] [] seen1 nhr1 h1).1

theorem validateResponse_removed_disjoint (s : DState)
    (msg : DeltaDiscoveryResponse) (nhr : List Resource)
    (h : validateResponse s msg = .ok nhr) :
    ∀ n ∈ msg.removed_resources, n ∉ msg.resources.map Resource.name := by
  rw [validateResponse] at h
  split at h
  · cases h
  · rename_i seen1 nhr1 h1
    split at h
    · cases h
    · rename_i seen2 h2
      intro n hn hmem
      obtain ⟨x, hx, he⟩ := List.mem_map.mp hmem
      have hseen := (validateResourcesLoop_seen s msg.type_url msg.resources
        [] [] seen1 nhr1 h1).2 x hx
      exact validateRemovedLoop_disjoint msg.removed_resources seen1 seen2 h2 n hn
        (he ▸ hseen)

theorem validateResponse_mem_nhr (s : DState) (msg : DeltaDiscoveryResponse)
    (nhr : List Resource) (r : Resource)
    (h : validateResponse s msg = .ok nhr) (hr : r ∈ msg.resources)
    (hhb : isHeartbeatResource s r = false) : r ∈ nhr := by
  rw [validateResponse] at h
  split at h
  · cases h
  · rename_i seen1 nhr1 h1
    split at h
    · cases h
    · cases h
      exact validateResourcesLoop_nhr_complete s msg.type_url msg.resources
        [] [] seen1 nhr r h1 hr hhb

theorem validateResponse_nhr_not_heartbeat (s : DState)
    (msg : DeltaDiscoveryResponse) (nhr : List Resource) (x : Resource)
    (h : validateResponse s msg = .ok nhr) (hx : x ∈ nhr) :
    isHeartbeatResource s x = false := by
  rw [validateResponse] at h
  split at h
  · cases h
  · rename_i seen1 nhr1 h1
    split at h
    · cases h
    · cases h
      rcases validateResourcesLoop_nhr_sound s msg.type_url msg.resources
        [] [] seen1 nhr h1 x hx with h3 | h3
      · cases h3
      · exact h3.2

/-! Shape of `handleResponse` on each of the three control-flow paths. -/

theorem handleResponse_valFail (s : DState) (wf : WatcherOracle)
    (msg : DeltaDiscoveryResponse) (e : String)
    (hval : validateResponse s msg = .error e) :
    handleResponse s wf msg =
      (s,
       { nonce := msg.nonce, type_url := s.type_url,
         error_detail := { code := grpcStatusInternal,
                           message := truncateGrpcStatusMessage e } },
       [WatcherEvent.onConfigUpdateFailed .UpdateRejected (some e)]) := by
  simp [handleResponse, handleGoodResponse, hval]

theorem handleResponse_watcherFail (s : DState) (wf : WatcherOracle)
    (msg : DeltaDiscoveryResponse) (nhr : List Resource) (e : String)
    (hval : validateResponse s msg = .ok nhr)
    (hwf : wf nhr msg.removed_resources msg.system_version_info = some e) :
    handleResponse s wf msg =
      (applyResponse s msg,
       { nonce := msg.nonce, type_url := s.type_url,
         error_detail := { code := grpcStatusInternal,
                           message := truncateGrpcStatusMessage e } },
       [WatcherEvent.onConfigUpdate nhr msg.removed_resources
          msg.system_version_info,
        WatcherEvent.onConfigUpdateFailed .UpdateRejected (some e)]) := by
  simp [handleResponse, handleGoodResponse, hval, hwf]

theorem handleResponse_ok (s : DState) (wf : WatcherOracle)
    (msg : DeltaDiscoveryResponse) (nhr : List Resource)
    (hval : validateResponse s msg = .ok nhr)
    (hwf : wf nhr msg.removed_resources msg.system_version_info = none) :
    handleResponse s wf msg =
      (applyRemovals (applyResponse s msg) msg.removed_resources,
       { nonce := msg.nonce, type_url := s.type_url, error_detail := okStatus },
       [WatcherEvent.onConfigUpdate nhr msg.removed_resources
          msg.system_version_info]) := by
  simp [handleResponse, handleGoodResponse, hval, hwf]

theorem handleResponse_nonce (s : DState) (wf : WatcherOracle)
    (msg : DeltaDiscoveryResponse) :
    (handleResponse s wf msg).2.1.nonce = msg.nonce := by
  rcases hval : validateResponse s msg with e | nhr
  · rw [handleResponse_valFail s wf msg e hval]
  · rcases hwf : wf nhr msg.removed_resources msg.system_version_info with _ | e
    · rw [handleResponse_ok s wf msg nhr hval hwf]
    · rw [handleResponse_watcherFail s wf msg nhr e hval hwf]

theorem handleResponse_untouched (s : DState) (wf : WatcherOracle)
    (msg : DeltaDiscoveryResponse) :
    (handleResponse s wf msg).1.type_url = s.type_url ∧
    (handleResponse s wf msg).1.names_added_ = s.names_added_ ∧
    (handleResponse s wf msg).1.names_removed_ = s.names_removed_ ∧
    (handleResponse s wf msg).1.any_request_sent_yet_in_current_stream_ =
      s.any_request_sent_yet_in_current_stream_ ∧
    (handleResponse s wf msg).1.supports_heartbeats_ = s.supports_heartbeats_ := by
  rcases hval : validateResponse s msg with e | nhr
  · rw [handleResponse_valFail s wf msg e hval]
    exact ⟨rfl, rfl, rfl, rfl, rfl⟩
  · have har := applyResponseFold_untouched msg.resources s
    rcases hwf : wf nhr msg.removed_resources msg.system_version_info with _ | e
    · rw [handleResponse_ok s wf msg nhr hval hwf]
      have hrm := applyRemovals_untouched msg.removed_resources (applyResponse s msg)
      rw [applyResponse] at *
      refine ⟨?_, ?_, ?_, ?_, ?_⟩ <;> simp_all
    · rw [handleResponse_watcherFail s wf msg nhr e hval hwf]
      rw [applyResponse] at *
      exact ⟨har.1, har.2.1, har.2.2.1, har.2.2.2.1, har.2.2.2.2.1⟩

theorem handleResponse_configUpdate_added (s : DState) (wf : WatcherOracle)
    (msg : DeltaDiscoveryResponse) (nhr added : List Resource)
    (removed : List String) (ver : String)
    (hval : validateResponse s msg = .ok nhr)
    (hev : WatcherEvent.onConfigUpdate added removed ver ∈
      (handleResponse s wf msg).2.2) :
    added = nhr := by
  rcases hwf : wf nhr msg.removed_resources msg.system_version_info with _ | e
  · rw [handleResponse_ok s wf msg nhr hval hwf] at hev
    simp only [List.mem_singleton, WatcherEvent.onConfigUpdate.injEq] at hev
    exact hev.1
  · rw [handleResponse_watcherFail s wf msg nhr e hval hwf] at hev
    rcases List.mem_cons.mp hev with h | h
    · cases h
      rfl
    · simp only [List.mem_singleton] at h
      cases h

theorem handleResponse_ttl_of_ok (s : DState) (wf : WatcherOracle)
    (msg : DeltaDiscoveryResponse) (nhr : List Resource)
    (hval : validateResponse s msg = .ok nhr) :
    (handleResponse s wf msg).1.ttl_ = (applyResponse s msg).ttl_ := by
  rcases hwf : wf nhr msg.removed_resources msg.system_version_info with _ | e
  · rw [handleResponse_ok s wf msg nhr hval hwf]
    exact (applyRemovals_untouched msg.removed_resources (applyResponse s msg)).2.2.2.1
  · rw [handleResponse_watcherFail s wf msg nhr e hval hwf]

theorem handleResponse_isSome_mono (s : DState) (wf : WatcherOracle)
    (msg : DeltaDiscoveryResponse) (n : String)
    (h : (lookupL s.resource_state_ n).isSome = true) :
    (lookupL (handleResponse s wf msg).1.resource_state_ n).isSome = true := by
  rcases hval : validateResponse s msg with e | nhr
  · rw [handleResponse_valFail s wf msg e hval]
    exact h
  · have h1 : (lookupL (applyResponse s msg).resource_state_ n).isSome = true := by
      rw [applyResponse]
      exact applyResponseFold_isSome_mono msg.resources s n h
    rcases hwf : wf nhr msg.removed_resources msg.system_version_info with _ | e
    · rw [handleResponse_ok s wf msg nhr hval hwf]
      exact applyRemovals_isSome_mono msg.removed_resources (applyResponse s msg) n h1
    · rw [handleResponse_watcherFail s wf msg nhr e hval hwf]
      exact h1

/-! Reachable states.  `Reachable tu hb s I SR` says state `s` is reachable
from a fresh subscription by some interleaving of the five entry points,
where the ghost variable `I` tracks the set of names the user currently has
interest in (folded over the `update_interest` calls) and `SR` the names
whose last server action was an explicit removal processed while the entry
was present and interest was held. -/

def interestUpdate (I A R : List String) : List String :=
  (I ++ A).filter (fun n => n ∉ R)

def tableHas (s : DState) (n : String) : Bool :=
  (lookupL s.resource_state_ n).isSome

def srUpdate (s : DState) (I SR : List String) (wf : WatcherOracle)
    (msg : DeltaDiscoveryResponse) : List String :=
  if (handleResponse s wf msg).2.1.error_detail.code = grpcStatusOk then
    SR.filter (fun n => n ∉ msg.resources.map Resource.name) ++
      msg.removed_resources.filter
        (fun n => tableHas (applyResponse s msg) n && decide (n ∈ I))
  else SR

inductive Reachable (tu : String) (hb : Bool) :
    DState → List String → List String → Prop where
  | init : Reachable tu hb (initState tu hb) [] []
  | interest (s : DState) (I SR A R : List String) :
      Reachable tu hb s I SR →
      Reachable tu hb (updateSubscriptionInterest s A R)
        (interestUpdate I A R) (SR.filter (fun n => n ∉ R))
  | reqAckless (s : DState) (I SR : List String) :
      Reachable tu hb s I SR →
      Reachable tu hb (getNextRequestAckless s).1 I SR
  | reqAck (s : DState) (I SR : List String) (ack : UpdateAck) :
      Reachable tu hb s I SR →
      Reachable tu hb (getNextRequestWithAck s ack).1 I SR
  | response (s : DState) (I SR : List String) (wf : WatcherOracle)
      (msg : DeltaDiscoveryResponse) :
      Reachable tu hb s I SR →
      Reachable tu hb (handleResponse s wf msg).1 I (srUpdate s I SR wf msg)
  | estabFailure (s : DState) (I SR : List String) :
      Reachable tu hb s I SR →
      Reachable tu hb (handleEstablishmentFailure s).1 I SR
  | ttlExpiry (s : DState) (I SR : List String) (expired : List String) :
      Reachable tu hb s I SR →
      (∀ n ∈ expired, (lookupL s.ttl_ n).isSome = true) →
      Reachable tu hb (ttlExpiryCallback s expired).1 I SR

/-- The pending sets stay disjoint in every reachable state. -/
theorem reachable_pending_disjoint (tu : String) (hb : Bool) (s : DState)
    (I SR : List String) (h : Reachable tu hb s I SR) :
    ∀ n, n ∈ s.names_added_ → n ∉ s.names_removed_ := by
  induction h with
  | init =>
    intro n hn
    cases hn
  | interest s I SR A R _ ih =>
    intro n hn hmem
    rw [updateSubscriptionInterest] at hn hmem
    obtain ⟨h1, h2⟩ := (rmFold_added_mem R _ n).mp hn
    rcases (rmFold_removed_mem R _ n).mp hmem with h3 | h3
    · obtain ⟨h4, h5⟩ := (addFold_removed_mem A s n).mp h3
      rcases (addFold_added_mem A s n).mp h1 with h6 | h6
      · exact ih n h6 h4
      · exact h5 h6
    · exact h2 h3
  | reqAckless s I SR _ ih =>
    intro n hn
    rw [getNextRequestAckless] at hn
    rw [(getNextRequestInternal_state s).2.2.1] at hn
    cases hn
  | reqAck s I SR ack _ ih =>
    intro n hn
    have : (getNextRequestWithAck s ack).1 = (getNextRequestInternal s).1 := rfl
    rw [this, (getNextRequestInternal_state s).2.2.1] at hn
    cases hn
  | response s I SR wf msg _ ih =>
    intro n hn hmem
    rw [(handleResponse_untouched s wf msg).2.1] at hn
    rw [(handleResponse_untouched s wf msg).2.2.1] at hmem
    exact ih n hn hmem
  | estabFailure s I SR _ ih =>
    exact ih
  | ttlExpiry s I SR expired _ _ ih =>
    intro n hn hmem
    rw [(ttlExpiry_untouched expired s).2.1] at hn
    rw [(ttlExpiry_untouched expired s).2.2.1] at hmem
    exact ih n hn hmem

/-- Every name the user has interest in, and every name retained after a
server removal, is present in the resource table, in every reachable
state. -/
theorem reachable_in_table (tu : String) (hb : Bool) (s : DState)
    (I SR : List String) (h : Reachable tu hb s I SR) :
    ∀ n, n ∈ I ∨ n ∈ SR → (lookupL s.resource_state_ n).isSome = true := by
  induction h with
  | init =>
    intro n hn
    rcases hn with hn | hn <;> cases hn
  | interest s I SR A R _ ih =>
    intro n hn
    have hnR : n ∉ R := by
      rcases hn with hn | hn
      · exact (by simpa using (List.mem_filter.mp hn).2)
      · exact (by simpa using (List.mem_filter.mp hn).2)
    rw [updateSubscriptionInterest, rmFold_lookup, if_neg hnR, addFold_lookup]
    by_cases hA : n ∈ A
    · simp [hA]
    · rw [if_neg hA]
      apply ih
      rcases hn with hn | hn
      · have h1 := (List.mem_filter.mp hn).1
        rcases List.mem_append.mp h1 with h2 | h2
        · exact Or.inl h2
        · exact absurd h2 hA
      · exact Or.inr (List.mem_filter.mp hn).1
  | reqAckless s I SR _ ih =>
    intro n hn
    rw [getNextRequestAckless, (getNextRequestInternal_state s).2.1]
    exact ih n hn
  | reqAck s I SR ack _ ih =>
    intro n hn
    have he : (getNextRequestWithAck s ack).1 = (getNextRequestInternal s).1 := rfl
    rw [he, (getNextRequestInternal_state s).2.1]
    exact ih n hn
  | response s I SR wf msg _ ih =>
    intro n hn
    rcases hn with hn | hn
    · exact handleResponse_isSome_mono s wf msg n (ih n (Or.inl hn))
    · rw [srUpdate] at hn
      by_cases hok : (handleResponse s wf msg).2.1.error_detail.code = grpcStatusOk
      · rw [if_pos hok] at hn
        rcases hval : validateResponse s msg with e | nhr
        · rw [handleResponse_valFail s wf msg e hval] at hok
          simp [grpcStatusInternal, grpcStatusOk] at hok
        rcases hwf : wf nhr msg.removed_resources msg.system_version_info with _ | e
        · rw [handleResponse_ok s wf msg nhr hval hwf]
          rcases List.mem_append.mp hn with h1 | h1
          · exact applyRemovals_isSome_mono msg.removed_resources _ n
              (by
                rw [applyResponse]
                exact applyResponseFold_isSome_mono msg.resources s n
                  (ih n (Or.inr (List.mem_filter.mp h1).1)))
          · have h2 := (List.mem_filter.mp h1).2
            rw [Bool.and_eq_true] at h2
            exact applyRemovals_isSome_mono msg.removed_resources _ n
              (by simpa [tableHas] using h2.1)
        · rw [handleResponse_watcherFail s wf msg nhr e hval hwf] at hok
          simp [grpcStatusInternal, grpcStatusOk] at hok
      · rw [if_neg hok] at hn
        exact handleResponse_isSome_mono s wf msg n (ih n (Or.inr hn))
  | estabFailure s I SR _ ih =>
    exact ih
  | ttlExpiry s I SR expired _ _ ih =>
    intro n hn
    rw [ttlExpiry_lookup]
    by_cases he : n ∈ expired
    · simp [he]
    · rw [if_neg he]
      exact ih n hn

/-! Concrete inputs used by the counterexamples and witnesses below. -/

def wfNone : WatcherOracle := fun _ _ _ => none

def wfReject : WatcherOracle := fun _ _ _ => some "watcher rejected the update"

def msgUnsolicited : DeltaDiscoveryResponse :=
  { type_url := "T", system_version_info := "sv", nonce := "n",
    resources := [{ name := "z", version := "v", aliases := [], ttl := none,
                    resource := some "T" }],
    removed_resources := [] }

/-- Claim C7: the ack returned by handle_response carries the response's
nonce verbatim on both the ACK and the NACK path, and a request built with
an ack copies that nonce into response_nonce and attaches error_detail
exactly when the ack's error status is not OK (a present-but-OK error is
never emitted). -/
theorem claim_C7 (s : DState) (wf : WatcherOracle)
    (msg : DeltaDiscoveryResponse) (ack : UpdateAck) :
    (handleResponse s wf msg).2.1.nonce = msg.nonce ∧
    (getNextRequestWithAck s ack).2.response_nonce = some ack.nonce ∧
    (getNextRequestWithAck s ack).2.error_detail =
      (if ack.error_detail.code ≠ grpcStatusOk then some ack.error_detail
       else none) := by
  refine ⟨handleResponse_nonce s wf msg, rfl, rfl⟩

/-- Claim C8: in every reachable state the pending sets to_subscribe
(`names_added_`) and to_unsubscribe (`names_removed_`) are disjoint, and
immediately after any request is built (with or without an ack) both
pending sets are empty. -/
theorem claim_C8 (tu : String) (hb : Bool) (s : DState) (I SR : List String)
    (n : String) (ack : UpdateAck) (h : Reachable tu hb s I SR) :
    (n ∈ s.names_added_ → n ∉ s.names_removed_) ∧
    (getNextRequestAckless s).1.names_added_ = [] ∧
    (getNextRequestAckless s).1.names_removed_ = [] ∧
    (getNextRequestWithAck s ack).1.names_added_ = [] ∧
    (getNextRequestWithAck s ack).1.names_removed_ = [] := by
  refine ⟨reachable_pending_disjoint tu hb s I SR h n,
    (getNextRequestInternal_state s).2.2.1,
    (getNextRequestInternal_state s).2.2.2.1,
    (getNextRequestInternal_state s).2.2.1,
    (getNextRequestInternal_state s).2.2.2.1⟩

/-- Claim C8 witness: instantiated at the initial state. -/
theorem claim_C8_witness :
    ("a" ∈ (initState "T" false).names_added_ →
      "a" ∉ (initState "T" false).names_removed_) ∧
    (getNextRequestAckless (initState "T" false)).1.names_added_ = [] ∧
    (getNextRequestAckless (initState "T" false)).1.names_removed_ = [] ∧
    (getNextRequestWithAck (initState "T" false)
      { nonce := "n0", type_url := "T", error_detail := okStatus }).1.names_added_ = [] ∧
    (getNextRequestWithAck (initState "T" false)
      { nonce := "n0", type_url := "T", error_detail := okStatus }).1.names_removed_ = [] :=
  claim_C8 "T" false (initState "T" false) [] [] "a"
    { nonce := "n0", type_url := "T", error_detail := okStatus } Reachable.init

/-- Claim C9 counterexample: the claimed iff fails.  From the fresh state a
single handle_response whose response carries a resource named z (which the
user never registered interest in, and which was never a server removal)
leaves z in the resource table, so table membership does not imply interest
or a retained removal. -/
theorem claim_C9_counterexample :
    ¬ (∀ (tu : String) (hb : Bool) (s : DState) (I SR : List String)
        (n : String), Reachable tu hb s I SR →
        ((lookupL s.resource_state_ n).isSome = true ↔ n ∈ I ∨ n ∈ SR)) := by
  intro hclaim
  have hr : Reachable "T" false
      (handleResponse (initState "T" false) wfNone msgUnsolicited).1 []
      (srUpdate (initState "T" false) [] [] wfNone msgUnsolicited) :=
    Reachable.response _ _ _ _ _ Reachable.init
  have h2 := (hclaim "T" false _ _ _ "z" hr).mp (by decide)
  have h3 : srUpdate (initState "T" false) [] [] wfNone msgUnsolicited = [] := by
    decide
  rw [h3] at h2
  rcases h2 with h2 | h2 <;> exact absurd h2 (List.not_mem_nil "z")

/-- Claim C9 (amended): in every reachable state, every name the user
currently has interest in — and every name retained after an explicit
server removal processed while interest was held — is present in the
resource-state table.  The converse direction of the original claim is
false (see the counterexample): handle_response inserts every name the
server sends, interested or not, and a TTL expiry re-inserts names whose
timers outlived the user's interest. -/
theorem claim_C9_amended (tu : String) (hb : Bool) (s : DState)
    (I SR : List String) (n : String) (h : Reachable tu hb s I SR)
    (hn : n ∈ I ∨ n ∈ SR) :
    (lookupL s.resource_state_ n).isSome = true :=
  reachable_in_table tu hb s I SR h n hn

def sC9w : DState := updateSubscriptionInterest (initState "T" false) ["x"] []

/-- Claim C9 witness: after registering interest in x, x is in the table. -/
theorem claim_C9_witness :
    ("x" ∈ (["x"] : List String) ∨ "x" ∈ ([] : List String)) ∧
    (lookupL sC9w.resource_state_ "x").isSome = true :=
  ⟨Or.inl (List.mem_singleton_self "x"),
   claim_C9_amended "T" false sC9w ["x"] [] "x"
     (Reachable.interest (initState "T" false) [] [] ["x"] [] Reachable.init)
     (Or.inl (List.mem_singleton_self "x"))⟩

/-- Claim C10 counterexample: for a name in both the added and the removed
set of a single update_interest call, the claim's added-side postcondition
fails: the removed loop runs second, so x ends up deleted from the table
and absent from to_subscribe, not Waiting and subscribed as claimed. -/
theorem claim_C10_counterexample :
    ¬ (lookupL (updateSubscriptionInterest (initState "T" false) ["x"]
          ["x"]).resource_state_ "x" = some .waitingForServer ∧
       "x" ∈ (updateSubscriptionInterest (initState "T" false) ["x"]
          ["x"]).names_added_) := by
  decide

/-- Claim C10 (amended): provided the added and removed sets are disjoint
(a name occurring in both is treated as removed, because the removed loop
runs second), update_interest sets each added name's table entry to
Waiting, removes it from to_unsubscribe and inserts it into to_subscribe,
and deletes each removed name from the table, removes it from to_subscribe
and inserts it into to_unsubscribe. -/
theorem claim_C10_amended (s : DState) (A R : List String) (a r : String)
    (hdisj : ∀ x ∈ A, x ∉ R) (ha : a ∈ A) (hr : r ∈ R) :
    (lookupL (updateSubscriptionInterest s A R).resource_state_ a =
        some .waitingForServer ∧
      a ∉ (updateSubscriptionInterest s A R).names_removed_ ∧
      a ∈ (updateSubscriptionInterest s A R).names_added_) ∧
    (lookupL (updateSubscriptionInterest s A R).resource_state_ r = none ∧
      r ∉ (updateSubscriptionInterest s A R).names_added_ ∧
      r ∈ (updateSubscriptionInterest s A R).names_removed_) := by
  have haR : a ∉ R := hdisj a ha
  constructor
  · refine ⟨?_, ?_, ?_⟩
    · rw [updateSubscriptionInterest, rmFold_lookup, if_neg haR,
        addFold_lookup, if_pos ha]
    · rw [updateSubscriptionInterest]
      intro hmem
      rcases (rmFold_removed_mem R _ a).mp hmem with h1 | h1
      · exact ((addFold_removed_mem A s a).mp h1).2 ha
      · exact haR h1
    · rw [updateSubscriptionInterest]
      exact (rmFold_added_mem R _ a).mpr
        ⟨(addFold_added_mem A s a).mpr (Or.inr ha), haR⟩
  · refine ⟨?_, ?_, ?_⟩
    · rw [updateSubscriptionInterest, rmFold_lookup, if_pos hr]
    · rw [updateSubscriptionInterest]
      intro hmem
      exact ((rmFold_added_mem R _ r).mp hmem).2 hr
    · rw [updateSubscriptionInterest]
      exact (rmFold_removed_mem R _ r).mpr (Or.inr hr)

def sC10 : DState :=
  { type_url := "T"
    resource_state_ := [("y", .known "v")]
    names_added_ := []
    names_removed_ := []
    ttl_ := []
    any_request_sent_yet_in_current_stream_ := true
    supports_heartbeats_ := false
    dynamic_context_changed_ := false }

/-- Claim C10 witness: adding x and removing y (disjoint sets) on a state
whose table holds y. -/
theorem claim_C10_witness :
    (lookupL (updateSubscriptionInterest sC10 ["x"] ["y"]).resource_state_ "x" =
        some .waitingForServer ∧
      "x" ∉ (updateSubscriptionInterest sC10 ["x"] ["y"]).names_removed_ ∧
      "x" ∈ (updateSubscriptionInterest sC10 ["x"] ["y"]).names_added_) ∧
    (lookupL (updateSubscriptionInterest sC10 ["x"] ["y"]).resource_state_ "y" =
        none ∧
      "y" ∉ (updateSubscriptionInterest sC10 ["x"] ["y"]).names_added_ ∧
      "y" ∈ (updateSubscriptionInterest sC10 ["x"] ["y"]).names_removed_) :=
  claim_C10_amended sC10 ["x"] ["y"] "x" "y" (by decide) (by decide) (by decide)

/-- Claim C2: when next_request is built while any_request_sent_yet is
false, the request's resource_names_subscribe contains every name in the
resource table (Waiting names included), initial_resource_versions maps
exactly the Known names to their stored versions, resource_names_unsubscribe
is empty, and any_request_sent_yet is true afterwards; when the flag was
already true, initial_resource_versions is empty. -/
theorem claim_C2 (s : DState) (m n v : String) (st : ResourceState)
    (hnd : (s.resource_state_.map Prod.fst).Nodup) :
    (s.any_request_sent_yet_in_current_stream_ = false →
      ((m, st) ∈ s.resource_state_ →
        m ∈ (getNextRequestInternal s).2.resource_names_subscribe) ∧
      ((n, v) ∈ (getNextRequestInternal s).2.initial_resource_versions ↔
        lookupL s.resource_state_ n = some (.known v)) ∧
      (getNextRequestInternal s).2.resource_names_unsubscribe = [] ∧
      (getNextRequestInternal s).1.any_request_sent_yet_in_current_stream_ =
        true) ∧
    (s.any_request_sent_yet_in_current_stream_ = true →
      (getNextRequestInternal s).2.initial_resource_versions = []) := by
  constructor
  · intro hflag
    refine ⟨?_, ?_, ?_, ?_⟩
    · intro hmem
      show m ∈ (if s.any_request_sent_yet_in_current_stream_ = false then _
        else s).names_added_
      rw [if_pos hflag]
      exact mem_subscribeAll_of_mem s.resource_state_ s.names_added_ (m, st) hmem
    · show (n, v) ∈ (if s.any_request_sent_yet_in_current_stream_ = false then
        collectInitialVersions s.resource_state_ else []) ↔ _
      rw [if_pos hflag, mem_collectInitialVersions,
        lookupL_eq_some_iff_mem s.resource_state_ hnd]
    · show (if s.any_request_sent_yet_in_current_stream_ = false then _
        else s).names_removed_ = []
      rw [if_pos hflag]
    · show (if s.any_request_sent_yet_in_current_stream_ = false then _
        else s).any_request_sent_yet_in_current_stream_ = true
      rw [if_pos hflag]
  · intro hflag
    show (if s.any_request_sent_yet_in_current_stream_ = false then
      collectInitialVersions s.resource_state_ else []) = []
    rw [if_neg (by rw [hflag]; exact fun h => Bool.noConfusion h)]

def sC2 : DState :=
  { type_url := "T"
    resource_state_ := [("a", .known "v1"), ("b", .waitingForServer)]
    names_added_ := []
    names_removed_ := []
    ttl_ := []
    any_request_sent_yet_in_current_stream_ := false
    supports_heartbeats_ := false
    dynamic_context_changed_ := false }

/-- Claim C2 witness: a first-stream request over a table holding a Known
and a Waiting entry. -/
theorem claim_C2_witness :
    (sC2.resource_state_.map Prod.fst).Nodup ∧
    ((sC2.any_request_sent_yet_in_current_stream_ = false →
      (("b", ResourceState.waitingForServer) ∈ sC2.resource_state_ →
        "b" ∈ (getNextRequestInternal sC2).2.resource_names_subscribe) ∧
      (("a", "v1") ∈ (getNextRequestInternal sC2).2.initial_resource_versions ↔
        lookupL sC2.resource_state_ "a" = some (.known "v1")) ∧
      (getNextRequestInternal sC2).2.resource_names_unsubscribe = [] ∧
      (getNextRequestInternal sC2).1.any_request_sent_yet_in_current_stream_ =
        true) ∧
    (sC2.any_request_sent_yet_in_current_stream_ = true →
      (getNextRequestInternal sC2).2.initial_resource_versions = [])) :=
  ⟨by decide, claim_C2 sC2 "b" "a" "v1" .waitingForServer (by decide)⟩

def sHB : DState :=
  { type_url := "T"
    resource_state_ := [("a", .known "v1")]
    names_added_ := []
    names_removed_ := []
    ttl_ := []
    any_request_sent_yet_in_current_stream_ := true
    supports_heartbeats_ := true
    dynamic_context_changed_ := false }

def rHB : Resource :=
  { name := "a", version := "v1", aliases := [], ttl := some 5,
    resource := none }

def msgHB : DeltaDiscoveryResponse :=
  { type_url := "T", system_version_info := "sv", nonce := "n",
    resources := [rHB], removed_resources := [] }

/-- Claim C3: in a validated response, a resource classified as a heartbeat
never appears in the added_or_updated list of any on_config_update call the
processing makes, while its TTL is still refreshed: after processing, the
TTL tracker for that name holds the resource's ttl if it carries one and no
timer if it does not. -/
theorem claim_C3 (s : DState) (wf : WatcherOracle)
    (msg : DeltaDiscoveryResponse) (r : Resource) (nhr added : List Resource)
    (removed : List String) (ver : String)
    (hval : validateResponse s msg = .ok nhr)
    (hr : r ∈ msg.resources)
    (hhb : isHeartbeatResource s r = true)
    (hev : WatcherEvent.onConfigUpdate added removed ver ∈
      (handleResponse s wf msg).2.2) :
    r ∉ added ∧
    lookupL (handleResponse s wf msg).1.ttl_ r.name = r.ttl := by
  constructor
  · have he := handleResponse_configUpdate_added s wf msg nhr added removed ver
      hval hev
    subst he
    intro hmem
    have hcontra := validateResponse_nhr_not_heartbeat s msg added r hval hmem
    rw [hhb] at hcontra
    cases hcontra
  · rw [handleResponse_ttl_of_ok s wf msg nhr hval, applyResponse]
    exact (applyResponseFold_lookup_mem msg.resources s r
      (validateResponse_names_nodup s msg nhr hval) hr).2

/-- Claim C3 witness: a heartbeat for a Known resource with a ttl. -/
theorem claim_C3_witness :
    validateResponse sHB msgHB = .ok [] ∧
    rHB ∈ msgHB.resources ∧
    isHeartbeatResource sHB rHB = true ∧
    WatcherEvent.onConfigUpdate [] [] "sv" ∈
      (handleResponse sHB wfNone msgHB).2.2 ∧
    (rHB ∉ ([] : List Resource) ∧
     lookupL (handleResponse sHB wfNone msgHB).1.ttl_ rHB.name = rHB.ttl) :=
  ⟨by rfl, by decide, by rfl, by decide,
   claim_C3 sHB wfNone msgHB rHB [] [] [] "sv" (by rfl) (by decide) (by rfl)
     (by decide)⟩

def msgApplyA : DeltaDiscoveryResponse :=
  { type_url := "T", system_version_info := "sv", nonce := "n1",
    resources := [{ name := "a", version := "v", aliases := [], ttl := none,
                    resource := some "T" }],
    removed_resources := [] }

/-- Claim C1 counterexample: a response that passes validation but whose
watcher rejects the update takes the failure path (a NACK with code
Internal is returned) and yet the resource-state table differs from its
value before the response — the mutations already applied are not rolled
back, contradicting the claimed atomicity. -/
theorem claim_C1_counterexample :
    (handleResponse (initState "T" false) wfReject msgApplyA).2.1.error_detail.code =
      grpcStatusInternal ∧
    (handleResponse (initState "T" false) wfReject msgApplyA).1.resource_state_ ≠
      (initState "T" false).resource_state_ := by
  decide

/-- Claim C1 (amended): whenever processing throws (validation failure or
watcher-reported failure), handle_response returns a NACK whose error has
code Internal and the truncated exception message, and appends
on_update_failed(UpdateRejected, error) to the watcher calls; when the
failure is a validation failure (no on_config_update call was made) the
state — resource table and TTL tracker — is exactly the pre-response state,
but when the watcher reported the failure the table and TTL mutations
already applied are retained (no rollback). -/
theorem claim_C1_amended (s : DState) (wf : WatcherOracle)
    (msg : DeltaDiscoveryResponse) (s' : DState) (evs : List WatcherEvent)
    (e : String)
    (hfail : handleGoodResponse s wf msg = (s', evs, some e)) :
    handleResponse s wf msg =
      (s',
       { nonce := msg.nonce, type_url := s.type_url,
         error_detail := { code := grpcStatusInternal,
                           message := truncateGrpcStatusMessage e } },
       evs ++ [WatcherEvent.onConfigUpdateFailed .UpdateRejected (some e)]) ∧
    (evs = [] → s' = s) ∧
    (evs ≠ [] → s' = applyResponse s msg) := by
  refine ⟨?_, ?_, ?_⟩
  · simp [handleResponse, hfail]
  · intro hevs
    unfold handleGoodResponse at hfail
    split at hfail
    · simp only [Prod.mk.injEq] at hfail
      exact hfail.1.symm
    · split at hfail
      · simp only [Prod.mk.injEq] at hfail
        rw [← hfail.2.1] at hevs
        simp at hevs
      · simp only [Prod.mk.injEq] at hfail
        exact absurd hfail.2.2 (by simp)
  · intro hevs
    unfold handleGoodResponse at hfail
    split at hfail
    · simp only [Prod.mk.injEq] at hfail
      rw [← hfail.2.1] at hevs
      simp at hevs
    · split at hfail
      · simp only [Prod.mk.injEq] at hfail
        exact hfail.1.symm
      · simp only [Prod.mk.injEq] at hfail
        exact absurd hfail.2.2 (by simp)

def msgDup : DeltaDiscoveryResponse :=
  { type_url := "T", system_version_info := "sv", nonce := "n",
    resources := [{ name := "a", version := "v1", aliases := [], ttl := none,
                    resource := some "T" },
                  { name := "a", version := "v2", aliases := [], ttl := none,
                    resource := some "T" }],
    removed_resources := [] }

def eDup : String := "duplicate name a found among added/updated resources"

/-- Claim C1 witness: a duplicate-name response (V1 failure) leaves the
state untouched and yields the NACK and the failure notification. -/
theorem claim_C1_witness :
    handleGoodResponse (initState "T" false) wfNone msgDup =
      (initState "T" false, [], some eDup) ∧
    (handleResponse (initState "T" false) wfNone msgDup =
      (initState "T" false,
       { nonce := msgDup.nonce, type_url := (initState "T" false).type_url,
         error_detail := { code := grpcStatusInternal,
                           message := truncateGrpcStatusMessage eDup } },
       [] ++ [WatcherEvent.onConfigUpdateFailed .UpdateRejected (some eDup)]) ∧
     (([] : List WatcherEvent) = [] →
        initState "T" false = initState "T" false) ∧
     (([] : List WatcherEvent) ≠ [] →
        initState "T" false = applyResponse (initState "T" false) msgDup)) :=
  ⟨by rfl,
   claim_C1_amended (initState "T" false) wfNone msgDup (initState "T" false)
     [] eDup (by rfl)⟩

/-- Claim C4 counterexample: after a first request has been built the flag
any_request_sent_yet is true, and handle_establishment_failure leaves it
true — it does not reset it to false as the claim states (the reset happens
elsewhere, when a fresh stream is marked). -/
theorem claim_C4_counterexample :
    (getNextRequestAckless (initState "T" false)).1.any_request_sent_yet_in_current_stream_ =
      true ∧
    (handleEstablishmentFailure
        (getNextRequestAckless (initState "T" false)).1).1.any_request_sent_yet_in_current_stream_ =
      true := by
  decide

/-- Claim C4 (amended): handle_establishment_failure notifies the watcher
with on_update_failed(ConnectionFailure, none) and leaves the entire state —
the resource table and also any_request_sent_yet — unchanged; the flag reset
that forces a full snapshot on the next stream is not performed by this
operation. -/
theorem claim_C4_amended (s : DState) :
    handleEstablishmentFailure s =
      (s, [WatcherEvent.onConfigUpdateFailed .ConnectionFailure none]) := rfl

def rC5 : Resource :=
  { name := "a", version := "v", aliases := [], ttl := none, resource := none }

def msgC5 : DeltaDiscoveryResponse :=
  { type_url := "T", system_version_info := "sv", nonce := "n",
    resources := [rC5], removed_resources := [] }

def eC5 : String :=
  "type URL  embedded in an individual Any does not match the message-wide type URL T in DeltaDiscoveryResponse"

/-- Claim C5 (code bug): a resource with no payload, no aliases and not a
heartbeat falls through to the embedded-type-URL check, which compares the
response's type URL against the proto-default empty string of the absent
payload and throws; the response is NACKed and the resource is never
forwarded, although the spec requires it to be forwarded and the response
ACKed.  This theorem evaluates the code at the failing input. -/
theorem claim_C5_bug :
    isHeartbeatResource (initState "T" false) rC5 = false ∧
    rC5.resource = none ∧
    rC5.aliases = [] ∧
    (handleResponse (initState "T" false) wfNone msgC5).2.1.error_detail.code =
      grpcStatusInternal ∧
    (handleResponse (initState "T" false) wfNone msgC5).2.2 =
      [WatcherEvent.onConfigUpdateFailed .UpdateRejected (some eC5)] ∧
    (handleResponse (initState "T" false) wfNone msgC5).1 =
      initState "T" false := by
  refine ⟨rfl, rfl, rfl, rfl, ?_, rfl⟩
  rfl

def rC6 : Resource :=
  { name := "x", version := "v", aliases := ["al"], ttl := none,
    resource := none }

def msgC6 : DeltaDiscoveryResponse :=
  { type_url := "T", system_version_info := "sv", nonce := "n",
    resources := [rC6], removed_resources := [] }

/-- Claim C6 counterexample: a successfully processed response containing
an alias-only resource named x (no payload, non-empty aliases) changes the
table entry for x from absent to Known, contradicting the claim that the
entry is left exactly as it was. -/
theorem claim_C6_counterexample :
    lookupL (initState "T" false).resource_state_ "x" = none ∧
    (handleResponse (initState "T" false) wfNone msgC6).2.1.error_detail.code =
      grpcStatusOk ∧
    lookupL (handleResponse (initState "T" false) wfNone msgC6).1.resource_state_
      "x" = some (.known "v") := by
  decide

/-- Claim C6 (amended): in a successfully processed response, an alias-only
resource (no payload, non-empty aliases, not a heartbeat) is forwarded to
the watcher in the added_or_updated list, and — like every other
non-heartbeat resource — its table entry is set to Known with the incoming
version (it is not left as it was). -/
theorem claim_C6_amended (s : DState) (wf : WatcherOracle)
    (msg : DeltaDiscoveryResponse) (nhr : List Resource) (r : Resource)
    (hval : validateResponse s msg = .ok nhr)
    (hwf : wf nhr msg.removed_resources msg.system_version_info = none)
    (hr : r ∈ msg.resources) (hnp : r.resource = none) (hal : r.aliases ≠ [])
    (hhb : isHeartbeatResource s r = false) :
    r ∈ nhr ∧
    WatcherEvent.onConfigUpdate nhr msg.removed_resources
      msg.system_version_info ∈ (handleResponse s wf msg).2.2 ∧
    lookupL (handleResponse s wf msg).1.resource_state_ r.name =
      some (.known r.version) := by
  refine ⟨validateResponse_mem_nhr s msg nhr r hval hr hhb, ?_, ?_⟩
  · rw [handleResponse_ok s wf msg nhr hval hwf]
    exact List.mem_singleton_self _
  · rw [handleResponse_ok s wf msg nhr hval hwf]
    have hnrem : r.name ∉ msg.removed_resources := by
      intro hmem
      exact validateResponse_removed_disjoint s msg nhr hval r.name hmem
        (List.mem_map_of_mem Resource.name hr)
    show lookupL (applyRemovals (applyResponse s msg)
      msg.removed_resources).resource_state_ r.name = _
    rw [applyRemovals_lookup_not_mem msg.removed_resources _ r.name hnrem,
        applyResponse]
    exact (applyResponseFold_lookup_mem msg.resources s r
      (validateResponse_names_nodup s msg nhr hval) hr).1

/-- Claim C6 witness: the alias-only resource x over the fresh state. -/
theorem claim_C6_witness :
    validateResponse (initState "T" false) msgC6 = .ok [rC6] ∧
    (rC6 ∈ [rC6] ∧
     WatcherEvent.onConfigUpdate [rC6] msgC6.removed_resources
       msgC6.system_version_info ∈
       (handleResponse (initState "T" false) wfNone msgC6).2.2 ∧
     lookupL (handleResponse (initState "T" false) wfNone
       msgC6).1.resource_state_ rC6.name = some (.known rC6.version)) :=
  ⟨by rfl,
   claim_C6_amended (initState "T" false) wfNone msgC6 [rC6] rC6 (by rfl)
     (by rfl) (by decide) (by rfl) (by decide) (by rfl)⟩
